import Mathlib

/-!
Verification of the study-assistant core (`src/app.py`): the deterministic
fallback responder `demo_response`, the dispatcher `generate_response`, the
regex-equivalent sentence splitter, and the flashcard "Q:"/"A:" extraction
loop. All machine strings are modelled as Lean `String` (a list of
characters); Python `str.strip`, `str.lower`, slicing, `in`, `split` and
`re.split(r'(?<=[.!?])\s+', ...)` are embedded as executable functions below.
-/

namespace StudyApp

/-- Python `\s` / `str.strip` whitespace (ASCII set used by the app's data). -/
def pyIsSpace (c : Char) : Bool :=
  c == ' ' || c == '\t' || c == '\n' || c == '\r' || c == '\x0b' || c == '\x0c'

/-- Sentence-ending characters of the regex `(?<=[.!?])`. -/
def isSentEnd (c : Char) : Bool :=
  c == '.' || c == '!' || c == '?'

/-- `str.strip` on a character list: drop whitespace from both ends. -/
def pyStripL (l : List Char) : List Char :=
  ((l.dropWhile pyIsSpace).reverse.dropWhile pyIsSpace).reverse

/-- Python `str.strip()`. -/
def pyStrip (s : String) : String := ⟨pyStripL s.data⟩

/-- Python slicing `s[:n]`. -/
def strTake (s : String) (n : Nat) : String := ⟨s.data.take n⟩

/-- Python slicing `s[n:]`. -/
def strDrop (s : String) (n : Nat) : String := ⟨s.data.drop n⟩

/-- Python `s.startswith(p)`. -/
def strStartsWith (s p : String) : Bool := p.data.isPrefixOf s.data

/-- Python `str.lower()` (ASCII case mapping). -/
def pyLower (s : String) : String := ⟨s.data.map Char.toLower⟩

/-- Substring occurrence on character lists: `p` occurs contiguously in `l`. -/
def listInfixOf (p : List Char) : List Char → Bool
  | [] => p.isEmpty
  | c :: t => p.isPrefixOf (c :: t) || listInfixOf p t

/-- Python substring test `p in s`. -/
def strContains (s p : String) : Bool := listInfixOf p.data s.data

/-- Python `sep.join(xs)`. -/
def joinSep (sep : String) : List String → String
  | [] => ""
  | [x] => x
  | x :: y :: xs => x ++ sep ++ joinSep sep (y :: xs)

/-- The regex lookbehind `(?<=[.!?])`: does the previous character (head of
the reversed accumulator) end a sentence? -/
def headSentEnd : List Char → Bool
  | [] => false
  | p :: _ => isSentEnd p

/-- One step of `re.split(r'(?<=[.!?])\s+', text)`: `some acc` is the state
"building a segment whose characters so far, reversed, are `acc`"; `none` is
the state "inside the `\s+` separator run, skipping whitespace". A split
point is a whitespace character whose predecessor (the head of `acc`) is one
of `.`, `!`, `?`; the separator run is consumed greedily. -/
def splitAux : Option (List Char) → List Char → List (List Char)
  | none, [] => [[]]
  | none, c :: cs =>
    if pyIsSpace c then splitAux none cs else splitAux (some [c]) cs
  | some acc, [] => [acc.reverse]
  | some acc, c :: cs =>
    if pyIsSpace c && headSentEnd acc then
      acc.reverse :: splitAux none cs
    else
      splitAux (some (c :: acc)) cs

/-- `re.split(r'(?<=[.!?])\s+', text)` from `demo_response` (src/app.py:105). -/
def splitSentences (s : String) : List String :=
  (splitAux (some []) s.data).map (fun l => ⟨l⟩)

/-- Auxiliary for `split("\n")`: returns the first line and remaining lines. -/
def splitLinesAux : List Char → List Char × List (List Char)
  | [] => ([], [])
  | c :: cs =>
    if c = '\n' then ([], (splitLinesAux cs).1 :: (splitLinesAux cs).2)
    else (c :: (splitLinesAux cs).1, (splitLinesAux cs).2)

/-- Python `s.split("\n")`. -/
def pySplitNL (s : String) : List String :=
  ((splitLinesAux s.data).1 :: (splitLinesAux s.data).2).map (fun l => ⟨l⟩)

/-- The card rendering `f"Q: {q}\nA: {a}"` of the flashcard branch
(src/app.py:122). -/
def renderCard (p : String × String) : String :=
  "Q: " ++ p.1 ++ "\nA: " ++ p.2

/-- The question/answer pair built by iteration `i` of the flashcard loop
(src/app.py:115-121): a content card when `i < len(sents)`, otherwise the
placeholder card. -/
def flashQA (sents : List String) (i : Nat) : String × String :=
  if h : i < sents.length then
    ("What does this mean: \"" ++ pyStrip (strTake sents[i] 60) ++ "\"?",
     pyStrip sents[i])
  else
    ("Define key concept " ++ toString (i + 1) ++ ".",
     "Short definition or key point.")

/-- `demo_response` (src/app.py:97-137): the deterministic fallback responder.
Branches, in source order: empty-input guard, summary ("summar"), flashcards
("flashcard"), MCQ ("multiple-choice"/"mcq"/"multiple choice"), default chat. -/
def demo_response (system_msg user_input : String) : String :=
  let text := pyStrip user_input
  if text = "" then "No input provided."
  else if strContains (pyLower system_msg) "summar" then
    let sents := splitSentences text
    let bullets := ((sents.map (fun s => pyStrip s)).filter (fun s => s != "")).take 5
    if bullets ≠ [] then joinSep "\n" (bullets.map (fun b => "- " ++ b))
    else "Couldn't extract clear sentences to summarize."
  else if strContains (pyLower system_msg) "flashcard" then
    let sents := splitSentences text
    joinSep "\n\n" ((List.range 5).map (fun i => renderCard (flashQA sents i)))
  else if strContains (pyLower system_msg) "multiple-choice" ||
          strContains (pyLower system_msg) "mcq" ||
          strContains (pyLower system_msg) "multiple choice" then
    joinSep "\n\n" ((List.range 5).map (fun i =>
      toString (i + 1) ++
        ". Example question about the topic:\nA) Option 1\nB) Option 2\nC) Option 3\nD) Option 4\n**Answer:** A"))
  else
    let sents := splitSentences text
    let concise := if sents ≠ [] then joinSep " " (sents.take 2) else text
    "Demo reply — concise explanation:\n" ++ concise

/-- Outcome of the single synchronous backend attempt in `generate_response`:
the chain invocation either returns text or raises, carrying an error text. -/
inductive BackendOutcome where
  | ok (text : String)
  | error (msg : String)
deriving DecidableEq, Repr

/-- `generate_response` (src/app.py:139-153): `none` models `llm is None`
(no backend configured); `some` models a configured backend whose single
call either succeeded or raised. -/
def generate_response (system_msg user_input : String) :
    Option BackendOutcome → String
  | some (.ok t) => t
  | some (.error e) =>
      demo_response system_msg user_input ++ "\n\n[Note: LLM call failed: " ++ e ++ "]"
  | none => demo_response system_msg user_input

/-- The Q:/A: scanning loop of the Flashcards mode (src/app.py:221-230):
`q` is the pending-question variable; Python's `if q:` means the pending
question is used only when it is a non-empty string. -/
def qaScan : List String → Option String → List (String × String)
  | [], _ => []
  | block :: rest, q =>
    if strStartsWith block "Q:" then
      qaScan rest (some (pyStrip (strDrop block 2)))
    else if strStartsWith block "A:" then
      let a := pyStrip (strDrop block 2)
      match q with
      | some qs => if qs ≠ "" then (qs, a) :: qaScan rest none else qaScan rest (some qs)
      | none => qaScan rest none
    else qaScan rest q

/-- The flashcard extractor: `response.strip().split("\n")` scanned by the
Q:/A: loop (src/app.py:221-230). -/
def extractCards (response : String) : List (String × String) :=
  qaScan (pySplitNL (pyStrip response)) none

/-! ### Specification-side definitions

The following definitions transcribe claim statements (not the source), so
that a claim "the code computes X" becomes "`extractCards` = `...Spec...`". -/

/-- The extraction algorithm exactly as the claim words it: scan the body's
own lines (no preliminary strip of the body); a "Q:" line always sets the
pending slot; an "A:" line emits whenever the slot is set, empty or not. -/
def claimScan : List String → Option String → List (String × String)
  | [], _ => []
  | line :: rest, pending =>
    if strStartsWith line "Q:" then
      claimScan rest (some (pyStrip (strDrop line 2)))
    else if strStartsWith line "A:" then
      match pending with
      | some q => (q, pyStrip (strDrop line 2)) :: claimScan rest none
      | none => claimScan rest none
    else claimScan rest pending

/-- The extractor as the claim describes it, applied to the body's lines. -/
def claimExtract (body : String) : List (String × String) :=
  claimScan (pySplitNL body) none

/-- One transition of the amended extraction automaton: state = optional
pending question (kept only when non-empty) plus emitted records. -/
def amendedStep (st : Option String × List (String × String)) (line : String) :
    Option String × List (String × String) :=
  if strStartsWith line "Q:" then
    let q := pyStrip (strDrop line 2)
    (if q = "" then none else some q, st.2)
  else if strStartsWith line "A:" then
    match st.1 with
    | some q => (none, st.2 ++ [(q, pyStrip (strDrop line 2))])
    | none => st
  else st

/-- The amended claim's extractor: strip the body, then run the two-state
automaton over its lines; a whitespace-only "Q:" remainder leaves no pending
question. -/
def amendedExtract (body : String) : List (String × String) :=
  (List.foldl amendedStep (none, []) (pySplitNL (pyStrip body))).2

/-- The flashcard pair for index `i` exactly as the claim words it: the
question/answer formulas selected by whether a sentence exists at index `i`. -/
def flashSpecPair (sents : List String) (i : Nat) : String × String :=
  match sents[i]? with
  | some s =>
      ("What does this mean: \"" ++ pyStrip (strTake s 60) ++ "\"?", pyStrip s)
  | none =>
      ("Define key concept " ++ toString (i + 1) ++ ".",
       "Short definition or key point.")

/-- The flashcard-branch output as the claim words it: exactly 5 cards
indexed 0..4, each rendered as the two lines `Q: ...` / `A: ...`, joined by
a blank line. -/
def flashcardSpecOutput (input : String) : String :=
  joinSep "\n\n" ((List.range 5).map
    (fun i => renderCard (flashSpecPair (splitSentences (pyStrip input)) i)))

/-- The MCQ placeholder text as the claim words it: 5 numbered blocks, each
with options A-D and an answer line, joined by a blank line. -/
def mcqPlaceholder : String :=
  joinSep "\n\n" ((List.range 5).map (fun i =>
    toString (i + 1) ++
      ". Example question about the topic:\nA) Option 1\nB) Option 2\nC) Option 3\nD) Option 4\n**Answer:** A"))

/-- `s` contains no newline character. -/
def noNLb (s : String) : Bool := s.data.all (fun c => c != '\n')

/-- A split boundary as the claim defines it, still present inside a string:
a sentence-ending character `.`, `!`, `?` immediately followed by
whitespace. A correct splitter leaves no sentence for which this is true. -/
def hasBoundary : List Char → Bool
  | a :: b :: rest => (isSentEnd a && pyIsSpace b) || hasBoundary (b :: rest)
  | _ => false

/-- Interleave segments with separators: `alternate [s1, s2, ...] [w1, ...]`
is `s1 ++ w1 ++ s2 ++ w2 ++ ...`; used to state that the splitter removes
exactly the separator runs and nothing else. -/
def alternate : List (List Char) → List (List Char) → List Char
  | [], _ => []
  | s :: ss, [] => s ++ alternate ss []
  | s :: ss, w :: ws => s ++ w ++ alternate ss ws

/-- The characters a splitter state still owes to the reconstruction: the
segment under construction plus the rest, or — inside a separator run — the
rest with the remaining separator whitespace dropped. -/
def stContent : Option (List Char) → List Char → List Char
  | some acc, cs => acc.reverse ++ cs
  | none, cs => cs.dropWhile pyIsSpace

/-! ### Basic lemmas on the string helpers -/

lemma data_append (a b : String) : (a ++ b).data = a.data ++ b.data := rfl

lemma mk_ne_empty {l : List Char} (h : l ≠ []) : (⟨l⟩ : String) ≠ "" := by
  intro he
  exact h (congrArg String.data he)

lemma isPrefixOf_self_append (l r : List Char) : l.isPrefixOf (l ++ r) = true := by
  induction l with
  | nil => simp [List.isPrefixOf]
  | cons c cs ih => simp [List.isPrefixOf, ih]

lemma startsQ_of_Q (l : List Char) : strStartsWith ⟨'Q' :: ':' :: l⟩ "Q:" = true := by
  simp [strStartsWith, List.isPrefixOf]

lemma startsA_of_A (l : List Char) : strStartsWith ⟨'A' :: ':' :: l⟩ "A:" = true := by
  simp [strStartsWith, List.isPrefixOf]

lemma startsQ_of_A (l : List Char) : strStartsWith ⟨'A' :: ':' :: l⟩ "Q:" = false := rfl

lemma startsQ_of_empty : strStartsWith "" "Q:" = false := rfl

lemma startsA_of_empty : strStartsWith "" "A:" = false := rfl

lemma drop2_of_two (a b : Char) (l : List Char) :
    strDrop ⟨a :: b :: l⟩ 2 = ⟨l⟩ := rfl

lemma head?_dropWhile {p : Char → Bool} {l : List Char} {c : Char}
    (h : (l.dropWhile p).head? = some c) : p c = false := by
  induction l with
  | nil => simp at h
  | cons d ds ih =>
    rw [List.dropWhile_cons] at h
    by_cases hd : p d = true
    · rw [if_pos hd] at h
      exact ih h
    · rw [if_neg hd] at h
      obtain rfl : d = c := by simpa using h
      simpa using hd

lemma getLast?_dropWhile_of_ne_nil {p : Char → Bool} {l : List Char}
    (h : l.dropWhile p ≠ []) : (l.dropWhile p).getLast? = l.getLast? := by
  induction l with
  | nil => simp at h
  | cons d ds ih =>
    rw [List.dropWhile_cons] at h ⊢
    by_cases hd : p d = true
    · rw [if_pos hd] at h ⊢
      rw [ih h]
      cases ds with
      | nil => rw [List.dropWhile_nil] at h; exact absurd rfl h
      | cons e es => rw [List.getLast?_cons_cons]
    · rw [if_neg hd]

lemma mem_of_mem_dropWhile {p : Char → Bool} {l : List Char} {x : Char}
    (h : x ∈ l.dropWhile p) : x ∈ l := by
  induction l with
  | nil => simp at h
  | cons d ds ih =>
    rw [List.dropWhile_cons] at h
    by_cases hd : p d = true
    · rw [if_pos hd] at h
      exact List.mem_cons_of_mem _ (ih h)
    · rw [if_neg hd] at h
      exact h

lemma dropWhile_eq_self_of_head {p : Char → Bool} :
    ∀ {l : List Char}, (∀ c, l.head? = some c → p c = false) → l.dropWhile p = l
  | [], _ => rfl
  | c :: cs, h => by
    rw [List.dropWhile_cons, if_neg]
    simp [h c rfl]

lemma head?_append_left {l r : List Char} (h : l ≠ []) : (l ++ r).head? = l.head? := by
  cases l with
  | nil => exact absurd rfl h
  | cons c cs => rfl

lemma getLast?_append_right {l r : List Char} (h : r ≠ []) :
    (l ++ r).getLast? = r.getLast? := by
  rw [← List.head?_reverse, List.reverse_append, head?_append_left (by simpa using h),
    List.head?_reverse]

/-! ### Lemmas about `pyStrip` -/

lemma pyStripL_head? {l : List Char} {c : Char}
    (h : (pyStripL l).head? = some c) : pyIsSpace c = false := by
  unfold pyStripL at h
  rw [List.head?_reverse] at h
  have hne : (l.dropWhile pyIsSpace).reverse.dropWhile pyIsSpace ≠ [] := by
    intro h0
    rw [h0] at h
    simp at h
  rw [getLast?_dropWhile_of_ne_nil hne, List.getLast?_reverse] at h
  exact head?_dropWhile h

lemma pyStripL_getLast? {l : List Char} {c : Char}
    (h : (pyStripL l).getLast? = some c) : pyIsSpace c = false := by
  unfold pyStripL at h
  rw [List.getLast?_reverse] at h
  exact head?_dropWhile h

lemma pyStripL_eq_self {l : List Char}
    (h1 : ∀ c, l.head? = some c → pyIsSpace c = false)
    (h2 : ∀ c, l.getLast? = some c → pyIsSpace c = false) :
    pyStripL l = l := by
  unfold pyStripL
  rw [dropWhile_eq_self_of_head h1]
  rw [dropWhile_eq_self_of_head (fun c hc => h2 c (by rwa [List.head?_reverse] at hc))]
  exact List.reverse_reverse l

lemma pyStripL_idem (l : List Char) : pyStripL (pyStripL l) = pyStripL l :=
  pyStripL_eq_self (fun _ hc => pyStripL_head? hc) (fun _ hc => pyStripL_getLast? hc)

lemma pyStripL_cons_space {c : Char} {l : List Char} (h : pyIsSpace c = true) :
    pyStripL (c :: l) = pyStripL l := by
  unfold pyStripL
  rw [List.dropWhile_cons, if_pos h]

lemma mem_pyStripL {l : List Char} {x : Char} (h : x ∈ pyStripL l) : x ∈ l := by
  unfold pyStripL at h
  rw [List.mem_reverse] at h
  have h2 := mem_of_mem_dropWhile h
  rw [List.mem_reverse] at h2
  exact mem_of_mem_dropWhile h2

lemma pyStripL_ne_nil {l : List Char} {c : Char} (hc : l.head? = some c)
    (hcs : pyIsSpace c = false) : pyStripL l ≠ [] := by
  cases l with
  | nil => simp at hc
  | cons d ds =>
    have hdc : d = c := by simpa using hc
    intro h0
    unfold pyStripL at h0
    rw [List.dropWhile_cons, if_neg (by simp [hdc, hcs])] at h0
    rw [List.reverse_eq_nil_iff] at h0
    have hall := List.dropWhile_eq_nil_iff.mp h0
    have hmem : d ∈ (d :: ds).reverse := by
      rw [List.mem_reverse]
      exact List.mem_cons_self _ _
    have hsp := hall d hmem
    rw [hdc, hcs] at hsp
    exact Bool.false_ne_true hsp

lemma pyStrip_idem (s : String) : pyStrip (pyStrip s) = pyStrip s :=
  String.ext (pyStripL_idem s.data)

lemma pyStrip_space_cons (l : List Char) :
    pyStrip ⟨' ' :: l⟩ = pyStrip ⟨l⟩ :=
  String.ext (pyStripL_cons_space rfl)

lemma pyStrip_data_of_fixed {s : String} (h : pyStrip s = s) :
    pyStripL s.data = s.data := congrArg String.data h

lemma strip_head_nonspace {s : String} (h : pyStrip s = s) :
    ∀ c, s.data.head? = some c → pyIsSpace c = false := by
  intro c hc
  apply pyStripL_head? (l := s.data)
  rw [pyStrip_data_of_fixed h]
  exact hc

lemma strip_getLast_nonspace {s : String} (h : pyStrip s = s) :
    ∀ c, s.data.getLast? = some c → pyIsSpace c = false := by
  intro c hc
  apply pyStripL_getLast? (l := s.data)
  rw [pyStrip_data_of_fixed h]
  exact hc

/-! ### Lemmas about the sentence splitter -/

lemma splitAux_ne_nil : ∀ (cs : List Char) (st : Option (List Char)),
    splitAux st cs ≠ [] := by
  intro cs
  induction cs with
  | nil => intro st; cases st <;> simp [splitAux]
  | cons c cs ih =>
    intro st
    cases st with
    | none =>
      simp only [splitAux]
      by_cases h : pyIsSpace c = true
      · rw [if_pos h]; exact ih _
      · rw [if_neg h]; exact ih _
    | some acc =>
      simp only [splitAux]
      by_cases h : (pyIsSpace c && headSentEnd acc) = true
      · rw [if_pos h]; simp
      · rw [if_neg h]; exact ih _

lemma reverse_head_of_getLast {acc : List Char} (hne : acc ≠ [])
    (h : ∀ c, acc.getLast? = some c → pyIsSpace c = false) :
    ∃ d ds, acc.reverse = d :: ds ∧ pyIsSpace d = false := by
  obtain ⟨x, hx⟩ : ∃ x, acc.getLast? = some x := by
    cases hh : acc.getLast? with
    | none => exact absurd (List.getLast?_eq_none_iff.mp hh) hne
    | some x => exact ⟨x, rfl⟩
  have hhead : acc.reverse.head? = some x := by
    rw [List.head?_reverse]; exact hx
  cases hr : acc.reverse with
  | nil => rw [hr] at hhead; simp at hhead
  | cons d ds =>
    rw [hr] at hhead
    have hdx : d = x := by simpa using hhead
    exact ⟨d, ds, rfl, by rw [hdx]; exact h x hx⟩

lemma splitAux_heads : ∀ (cs : List Char) (st : Option (List Char)),
    (∀ c, cs.getLast? = some c → pyIsSpace c = false) →
    (st = none → cs ≠ []) →
    (∀ acc, st = some acc → acc = [] → ∃ d ds, cs = d :: ds ∧ pyIsSpace d = false) →
    (∀ acc c, st = some acc → acc.getLast? = some c → pyIsSpace c = false) →
    ∀ seg ∈ splitAux st cs, ∃ d ds, seg = d :: ds ∧ pyIsSpace d = false := by
  intro cs
  induction cs with
  | nil =>
    intro st hlast hnone hempty hacc seg hseg
    cases st with
    | none => exact absurd rfl (hnone rfl)
    | some acc =>
      simp only [splitAux, List.mem_singleton] at hseg
      subst hseg
      have hne : acc ≠ [] := by
        intro h0
        obtain ⟨d, ds, hds, _⟩ := hempty acc rfl h0
        exact absurd hds (by simp)
      exact reverse_head_of_getLast hne (fun x hx => hacc acc x rfl hx)
  | cons c cs ih =>
    intro st hlast hnone hempty hacc seg hseg
    have hlast' : ∀ x, cs.getLast? = some x → pyIsSpace x = false := by
      intro x hx
      apply hlast
      cases cs with
      | nil => simp at hx
      | cons e es => rw [List.getLast?_cons_cons]; exact hx
    cases st with
    | none =>
      simp only [splitAux] at hseg
      by_cases hc : pyIsSpace c = true
      · rw [if_pos hc] at hseg
        have hcs : cs ≠ [] := by
          intro h0
          subst h0
          have h1 := hlast c (by simp)
          rw [h1] at hc
          exact Bool.false_ne_true hc
        exact ih none hlast' (fun _ => hcs) (fun a h => absurd h (by simp))
          (fun a x h => absurd h (by simp)) seg hseg
      · rw [if_neg hc] at hseg
        refine ih (some [c]) hlast' (fun h => absurd h (by simp)) ?_ ?_ seg hseg
        · intro a h1 h2
          injection h1 with h1'
          rw [← h1'] at h2
          exact absurd h2 (by simp)
        · intro a x h1 hx
          injection h1 with h1'
          rw [← h1'] at hx
          have hxc : c = x := by simpa using hx
          rw [← hxc]
          simpa using hc
    | some acc =>
      simp only [splitAux] at hseg
      by_cases hcond : (pyIsSpace c && headSentEnd acc) = true
      · rw [if_pos hcond] at hseg
        have hsplit := hcond
        rw [Bool.and_eq_true] at hsplit
        have hc : pyIsSpace c = true := hsplit.1
        have hcs : cs ≠ [] := by
          intro h0
          subst h0
          have h1 := hlast c (by simp)
          rw [h1] at hc
          exact Bool.false_ne_true hc
        rcases List.mem_cons.mp hseg with hseg1 | hseg2
        · subst hseg1
          have hne : acc ≠ [] := by
            intro h0
            subst h0
            simp [headSentEnd] at hcond
          exact reverse_head_of_getLast hne (fun x hx => hacc acc x rfl hx)
        · exact ih none hlast' (fun _ => hcs) (fun a h => absurd h (by simp))
            (fun a x h => absurd h (by simp)) seg hseg2
      · rw [if_neg hcond] at hseg
        refine ih (some (c :: acc)) hlast' (fun h => absurd h (by simp)) ?_ ?_ seg hseg
        · intro a h1 h2
          injection h1 with h1'
          rw [← h1'] at h2
          exact absurd h2 (by simp)
        · intro a x h1 hx
          injection h1 with h1'
          rw [← h1'] at hx
          cases acc with
          | nil =>
            have hxc : c = x := by simpa using hx
            obtain ⟨d, ds, hds, hd⟩ := hempty [] rfl rfl
            injection hds with hd1 hd2
            rw [← hxc, hd1]
            exact hd
          | cons e es =>
            rw [List.getLast?_cons_cons] at hx
            exact hacc (e :: es) x rfl hx

lemma splitSentences_heads {t : String} (hfix : pyStrip t = t) (hne : t ≠ "") :
    ∀ s ∈ splitSentences t, ∃ d ds, s.data = d :: ds ∧ pyIsSpace d = false := by
  intro s hs
  unfold splitSentences at hs
  rcases List.mem_map.mp hs with ⟨seg, hseg, hmk⟩
  have hdata : t.data ≠ [] := by
    intro h0
    exact hne (String.ext (by simp [h0]))
  have hmain := splitAux_heads t.data (some []) (strip_getLast_nonspace hfix)
    (fun h => absurd h (by simp))
    (by
      intro a h1 h2
      cases hd : t.data with
      | nil => exact absurd hd hdata
      | cons d ds =>
        exact ⟨d, ds, rfl, strip_head_nonspace hfix d (by rw [hd]; rfl)⟩)
    (by
      intro a x h1 hx
      injection h1 with h1'
      rw [← h1'] at hx
      simp at hx)
    seg hseg
  rw [← hmk]
  exact hmain

lemma strip_segment_ne_empty {s : String}
    (h : ∃ d ds, s.data = d :: ds ∧ pyIsSpace d = false) : pyStrip s ≠ "" := by
  obtain ⟨d, ds, hd, hsp⟩ := h
  apply mk_ne_empty
  exact pyStripL_ne_nil (c := d) (by rw [hd]; rfl) hsp

lemma splitAux_mem_chars : ∀ (cs : List Char) (st : Option (List Char))
    (seg : List Char) (x : Char), seg ∈ splitAux st cs → x ∈ seg →
    (∃ acc, st = some acc ∧ x ∈ acc) ∨ x ∈ cs := by
  intro cs
  induction cs with
  | nil =>
    intro st seg x hseg hx
    cases st with
    | none =>
      simp only [splitAux, List.mem_singleton] at hseg
      subst hseg
      simp at hx
    | some acc =>
      simp only [splitAux, List.mem_singleton] at hseg
      subst hseg
      rw [List.mem_reverse] at hx
      exact Or.inl ⟨acc, rfl, hx⟩
  | cons c cs ih =>
    intro st seg x hseg hx
    cases st with
    | none =>
      simp only [splitAux] at hseg
      by_cases hc : pyIsSpace c = true
      · rw [if_pos hc] at hseg
        rcases ih none seg x hseg hx with ⟨a, h1, _⟩ | h2
        · cases h1
        · exact Or.inr (List.mem_cons_of_mem _ h2)
      · rw [if_neg hc] at hseg
        rcases ih (some [c]) seg x hseg hx with ⟨a, h1, hmem⟩ | h2
        · injection h1 with h1'
          rw [← h1'] at hmem
          have hxc : x = c := by simpa using hmem
          rw [hxc]
          exact Or.inr (List.mem_cons_self _ _)
        · exact Or.inr (List.mem_cons_of_mem _ h2)
    | some acc =>
      simp only [splitAux] at hseg
      by_cases hcond : (pyIsSpace c && headSentEnd acc) = true
      · rw [if_pos hcond] at hseg
        rcases List.mem_cons.mp hseg with hseg1 | hseg2
        · subst hseg1
          rw [List.mem_reverse] at hx
          exact Or.inl ⟨acc, rfl, hx⟩
        · rcases ih none seg x hseg2 hx with ⟨a, h1, _⟩ | h2
          · cases h1
          · exact Or.inr (List.mem_cons_of_mem _ h2)
      · rw [if_neg hcond] at hseg
        rcases ih (some (c :: acc)) seg x hseg hx with ⟨a, h1, hmem⟩ | h2
        · injection h1 with h1'
          rw [← h1'] at hmem
          rcases List.mem_cons.mp hmem with hxc | hmem2
          · rw [hxc]
            exact Or.inr (List.mem_cons_self _ _)
          · exact Or.inl ⟨acc, rfl, hmem2⟩
        · exact Or.inr (List.mem_cons_of_mem _ h2)

lemma mem_splitSentences_chars {t s : String} {x : Char}
    (hs : s ∈ splitSentences t) (hx : x ∈ s.data) : x ∈ t.data := by
  unfold splitSentences at hs
  rcases List.mem_map.mp hs with ⟨seg, hseg, hmk⟩
  rw [← hmk] at hx
  rcases splitAux_mem_chars t.data (some []) seg x hseg hx with ⟨a, h1, hmem⟩ | h2
  · injection h1 with h1'
    rw [← h1'] at hmem
    simp at hmem
  · exact h2

lemma splitAux_dropLast : ∀ (cs : List Char) (st : Option (List Char)),
    ∀ seg ∈ (splitAux st cs).dropLast,
      ∃ c, seg.getLast? = some c ∧ isSentEnd c = true := by
  intro cs
  induction cs with
  | nil =>
    intro st seg hseg
    cases st <;> simp [splitAux] at hseg
  | cons c cs ih =>
    intro st seg hseg
    cases st with
    | none =>
      simp only [splitAux] at hseg
      by_cases hc : pyIsSpace c = true
      · rw [if_pos hc] at hseg
        exact ih none seg hseg
      · rw [if_neg hc] at hseg
        exact ih (some [c]) seg hseg
    | some acc =>
      simp only [splitAux] at hseg
      by_cases hcond : (pyIsSpace c && headSentEnd acc) = true
      · rw [if_pos hcond] at hseg
        have hne := splitAux_ne_nil cs none
        cases hrest : splitAux none cs with
        | nil => exact absurd hrest hne
        | cons r rs =>
          rw [hrest, List.dropLast_cons₂] at hseg
          rcases List.mem_cons.mp hseg with hseg1 | hseg2
          · subst hseg1
            have hsplit := hcond
            rw [Bool.and_eq_true] at hsplit
            have hmatch : headSentEnd acc = true := hsplit.2
            cases hacc : acc with
            | nil => rw [hacc] at hmatch; simp [headSentEnd] at hmatch
            | cons p ps =>
              rw [hacc] at hmatch
              refine ⟨p, ?_, by simpa [headSentEnd] using hmatch⟩
              rw [List.getLast?_reverse]
              rfl
          · rw [← hrest] at hseg2
            exact ih none seg hseg2
      · rw [if_neg hcond] at hseg
        exact ih (some (c :: acc)) seg hseg

lemma splitAux_nospace : ∀ (cs acc : List Char),
    (∀ x ∈ cs, pyIsSpace x = false) →
    splitAux (some acc) cs = [acc.reverse ++ cs] := by
  intro cs
  induction cs with
  | nil => intro acc h; simp [splitAux]
  | cons c cs ih =>
    intro acc h
    have hc : pyIsSpace c = false := h c (List.mem_cons_self _ _)
    simp only [splitAux]
    rw [if_neg (by simp [hc])]
    rw [ih (c :: acc) (fun x hx => h x (List.mem_cons_of_mem _ hx))]
    simp

/-! ### Completeness of the splitter: no boundary survives in a sentence -/

lemma hasBoundary_append_single : ∀ (x : List Char) (c : Char),
    hasBoundary x = false →
    (∀ a, x.getLast? = some a → (isSentEnd a && pyIsSpace c) = false) →
    hasBoundary (x ++ [c]) = false := by
  intro x
  induction x with
  | nil => intro c _ _; rfl
  | cons a x ih =>
    intro c hx h
    cases x with
    | nil =>
      show ((isSentEnd a && pyIsSpace c) || hasBoundary [c]) = false
      rw [h a rfl]
      rfl
    | cons b rest =>
      have hx' := hx
      rw [show hasBoundary (a :: b :: rest)
          = ((isSentEnd a && pyIsSpace b) || hasBoundary (b :: rest)) from rfl,
        Bool.or_eq_false_iff] at hx'
      show ((isSentEnd a && pyIsSpace b) || hasBoundary ((b :: rest) ++ [c])) = false
      rw [Bool.or_eq_false_iff]
      refine ⟨hx'.1, ih c hx'.2 ?_⟩
      intro a' ha'
      apply h
      rw [List.getLast?_cons_cons]
      exact ha'

lemma splitAux_no_boundary : ∀ (cs : List Char) (st : Option (List Char)),
    (∀ acc, st = some acc → hasBoundary acc.reverse = false) →
    ∀ seg ∈ splitAux st cs, hasBoundary seg = false := by
  intro cs
  induction cs with
  | nil =>
    intro st hst seg hseg
    cases st with
    | none =>
      simp only [splitAux, List.mem_singleton] at hseg
      subst hseg
      rfl
    | some acc =>
      simp only [splitAux, List.mem_singleton] at hseg
      subst hseg
      exact hst acc rfl
  | cons c cs ih =>
    intro st hst seg hseg
    cases st with
    | none =>
      simp only [splitAux] at hseg
      by_cases hc : pyIsSpace c = true
      · rw [if_pos hc] at hseg
        exact ih none (fun a h => by cases h) seg hseg
      · rw [if_neg hc] at hseg
        refine ih (some [c]) ?_ seg hseg
        intro a h
        injection h with h'
        rw [← h']
        rfl
    | some acc =>
      simp only [splitAux] at hseg
      by_cases hcond : (pyIsSpace c && headSentEnd acc) = true
      · rw [if_pos hcond] at hseg
        rcases List.mem_cons.mp hseg with h1 | h2
        · subst h1
          exact hst acc rfl
        · exact ih none (fun a h => by cases h) seg h2
      · rw [if_neg hcond] at hseg
        refine ih (some (c :: acc)) ?_ seg hseg
        intro a h
        injection h with h'
        rw [← h', List.reverse_cons]
        apply hasBoundary_append_single _ _ (hst acc rfl)
        intro a' ha'
        rw [List.getLast?_reverse] at ha'
        by_cases hc : pyIsSpace c = true
        · have hh : headSentEnd acc = false := by
            cases hhe : headSentEnd acc with
            | false => rfl
            | true => exact absurd (by simp [hc, hhe]) hcond
          cases acc with
          | nil => simp at ha'
          | cons p ps =>
            have hpa : p = a' := by simpa using ha'
            have hse : isSentEnd p = false := hh
            rw [← hpa, hse]
            rfl
        · have hc' : pyIsSpace c = false := by simpa using hc
          rw [hc', Bool.and_false]

/-! ### The splitter removes exactly the whitespace separator runs -/

lemma splitAux_alternate : ∀ (cs : List Char) (st : Option (List Char)),
    ∃ seps : List (List Char),
      (splitAux st cs).length = seps.length + 1 ∧
      (∀ w ∈ seps, w ≠ [] ∧ ∀ c ∈ w, pyIsSpace c = true) ∧
      alternate (splitAux st cs) seps = stContent st cs := by
  intro cs
  induction cs with
  | nil =>
    intro st
    refine ⟨[], ?_, ?_, ?_⟩
    · cases st <;> simp [splitAux]
    · intro w hw
      simp at hw
    · cases st with
      | none => simp [splitAux, alternate, stContent]
      | some acc => simp [splitAux, alternate, stContent]
  | cons c cs ih =>
    intro st
    cases st with
    | none =>
      by_cases hc : pyIsSpace c = true
      · obtain ⟨seps, h1, h2, h3⟩ := ih none
        refine ⟨seps, ?_, h2, ?_⟩
        · simp only [splitAux]
          rw [if_pos hc]
          exact h1
        · simp only [splitAux, stContent]
          rw [if_pos hc, List.dropWhile_cons, if_pos hc]
          simpa [stContent] using h3
      · obtain ⟨seps, h1, h2, h3⟩ := ih (some [c])
        refine ⟨seps, ?_, h2, ?_⟩
        · simp only [splitAux]
          rw [if_neg hc]
          exact h1
        · simp only [splitAux, stContent]
          rw [if_neg hc, List.dropWhile_cons, if_neg hc]
          simpa [stContent] using h3
    | some acc =>
      by_cases hcond : (pyIsSpace c && headSentEnd acc) = true
      · obtain ⟨seps, h1, h2, h3⟩ := ih none
        have hc : pyIsSpace c = true := by
          have h' := hcond
          rw [Bool.and_eq_true] at h'
          exact h'.1
        refine ⟨(c :: cs.takeWhile pyIsSpace) :: seps, ?_, ?_, ?_⟩
        · simp only [splitAux]
          rw [if_pos hcond]
          simp [h1]
        · intro w hw
          rcases List.mem_cons.mp hw with hw1 | hw2
          · rw [hw1]
            refine ⟨by simp, ?_⟩
            intro x hx
            rcases List.mem_cons.mp hx with hx1 | hx2
            · rw [hx1]
              exact hc
            · exact List.mem_takeWhile_imp hx2
          · exact h2 w hw2
        · simp only [splitAux, stContent]
          rw [if_pos hcond]
          show acc.reverse ++ (c :: cs.takeWhile pyIsSpace)
              ++ alternate (splitAux none cs) seps = acc.reverse ++ (c :: cs)
          rw [h3]
          simp only [stContent]
          simp [List.append_assoc, List.takeWhile_append_dropWhile]
      · obtain ⟨seps, h1, h2, h3⟩ := ih (some (c :: acc))
        refine ⟨seps, ?_, h2, ?_⟩
        · simp only [splitAux]
          rw [if_neg hcond]
          exact h1
        · simp only [splitAux, stContent]
          rw [if_neg hcond]
          rw [show stContent (some (c :: acc)) cs = (c :: acc).reverse ++ cs from rfl] at h3
          rw [h3]
          simp [List.append_assoc]

lemma map_data_map_mk (L : List (List Char)) :
    (L.map (fun l => (⟨l⟩ : String))).map String.data = L := by
  induction L with
  | nil => rfl
  | cons s ss ih => simp only [List.map_cons, ih]

/-! ### Lemmas about line splitting -/

lemma mk_nil_eq : (⟨[]⟩ : String) = "" := rfl

lemma data_ne_nil {s : String} (h : s ≠ "") : s.data ≠ [] := by
  intro h0
  exact h (String.ext (by rw [h0]))

lemma qcolon_data : ("Q: " : String).data = ['Q', ':', ' '] := rfl

lemma nacolon_data : ("\nA: " : String).data = ['\n', 'A', ':', ' '] := rfl

lemma nl2_data : ("\n\n" : String).data = ['\n', '\n'] := rfl

lemma joinSep_single (sep x : String) : joinSep sep [x] = x := rfl

lemma joinSep_cons₂ (sep x y : String) (xs : List String) :
    joinSep sep (x :: y :: xs) = x ++ sep ++ joinSep sep (y :: xs) := rfl

lemma joinSep_cons_ne (sep x : String) {xs : List String} (h : xs ≠ []) :
    joinSep sep (x :: xs) = x ++ sep ++ joinSep sep xs := by
  cases xs with
  | nil => exact absurd rfl h
  | cons y ys => rfl

lemma splitLinesAux_no_nl {l : List Char} (h : ∀ x ∈ l, x ≠ '\n') :
    splitLinesAux l = (l, []) := by
  induction l with
  | nil => rfl
  | cons c cs ih =>
    simp only [splitLinesAux]
    rw [if_neg (h c (List.mem_cons_self _ _)),
      ih (fun x hx => h x (List.mem_cons_of_mem _ hx))]

lemma splitLinesAux_append {x : List Char} (y : List Char) (h : ∀ c ∈ x, c ≠ '\n') :
    splitLinesAux (x ++ y) = (x ++ (splitLinesAux y).1, (splitLinesAux y).2) := by
  induction x with
  | nil => simp
  | cons c cs ih =>
    rw [List.cons_append]
    simp only [splitLinesAux]
    rw [if_neg (h c (List.mem_cons_self _ _)),
      ih (fun d hd => h d (List.mem_cons_of_mem _ hd))]
    simp

lemma splitLinesAux_nl_cons (y : List Char) :
    splitLinesAux ('\n' :: y) = ([], (splitLinesAux y).1 :: (splitLinesAux y).2) := by
  simp [splitLinesAux]

/-! ### Composing the extractor with rendered flashcards -/

lemma renderCard_data (p : String × String) :
    (renderCard p).data
      = ('Q' :: ':' :: ' ' :: p.1.data) ++ '\n' :: 'A' :: ':' :: ' ' :: p.2.data := by
  unfold renderCard
  rw [data_append, data_append, data_append, qcolon_data, nacolon_data]
  simp [List.append_assoc]

lemma renderCard_data_last (p : String × String) :
    (renderCard p).data
      = (('Q' :: ':' :: ' ' :: p.1.data) ++ ['\n', 'A', ':', ' ']) ++ p.2.data := by
  rw [renderCard_data]
  simp [List.append_assoc]

lemma join_render_data_head (p : String × String) (ps : List (String × String)) :
    ∃ l, (joinSep "\n\n" ((p :: ps).map renderCard)).data = 'Q' :: l := by
  cases ps with
  | nil =>
    refine ⟨':' :: ' ' :: (p.1.data ++ '\n' :: 'A' :: ':' :: ' ' :: p.2.data), ?_⟩
    rw [List.map_cons, List.map_nil, joinSep_single, renderCard_data]
    rfl
  | cons q qs =>
    refine ⟨':' :: ' ' ::
      (((p.1.data ++ '\n' :: 'A' :: ':' :: ' ' :: p.2.data) ++ ['\n', '\n'])
        ++ (joinSep "\n\n" ((q :: qs).map renderCard)).data), ?_⟩
    rw [List.map_cons, joinSep_cons_ne _ _ (by simp), data_append, data_append,
      renderCard_data, nl2_data]
    rfl

lemma join_render_getLast : ∀ (ps : List (String × String)),
    (∀ p ∈ ps, p.2 ≠ "" ∧ pyStrip p.2 = p.2) →
    ∀ c, (joinSep "\n\n" (ps.map renderCard)).data.getLast? = some c →
      pyIsSpace c = false := by
  intro ps
  induction ps with
  | nil =>
    intro h c hc
    simp [joinSep] at hc
  | cons p ps ih =>
    intro h c hc
    cases ps with
    | nil =>
      rw [List.map_cons, List.map_nil, joinSep_single, renderCard_data_last] at hc
      have hp2 : p.2.data ≠ [] := data_ne_nil (h p (List.mem_cons_self _ _)).1
      rw [getLast?_append_right hp2] at hc
      exact strip_getLast_nonspace (h p (List.mem_cons_self _ _)).2 c hc
    | cons q qs =>
      rw [List.map_cons, joinSep_cons_ne _ _ (by simp), data_append, data_append] at hc
      obtain ⟨l, hl⟩ := join_render_data_head q qs
      rw [getLast?_append_right (by rw [hl]; simp)] at hc
      exact ih (fun r hr => h r (List.mem_cons_of_mem _ hr)) c hc

lemma join_render_strip_fix (ps : List (String × String))
    (h : ∀ p ∈ ps, p.2 ≠ "" ∧ pyStrip p.2 = p.2) :
    pyStrip (joinSep "\n\n" (ps.map renderCard)) = joinSep "\n\n" (ps.map renderCard) := by
  cases ps with
  | nil => rfl
  | cons p ps =>
    apply String.ext
    show pyStripL (joinSep "\n\n" ((p :: ps).map renderCard)).data = _
    apply pyStripL_eq_self
    · intro c hc
      obtain ⟨l, hl⟩ := join_render_data_head p ps
      rw [hl] at hc
      have hcq : c = 'Q' := by
        have := hc
        simp at this
        exact this.symm
      rw [hcq]
      rfl
    · exact join_render_getLast (p :: ps) h

lemma pySplitNL_join_single (p : String × String)
    (h1 : ∀ x ∈ p.1.data, x ≠ '\n') (h2 : ∀ x ∈ p.2.data, x ≠ '\n') :
    pySplitNL (joinSep "\n\n" ([p].map renderCard))
      = [⟨'Q' :: ':' :: ' ' :: p.1.data⟩, ⟨'A' :: ':' :: ' ' :: p.2.data⟩] := by
  have hQ : ∀ x ∈ 'Q' :: ':' :: ' ' :: p.1.data, x ≠ '\n' := by
    intro x hx
    rcases List.mem_cons.mp hx with rfl | hx
    · decide
    rcases List.mem_cons.mp hx with rfl | hx
    · decide
    rcases List.mem_cons.mp hx with rfl | hx
    · decide
    exact h1 x hx
  have hA : ∀ x ∈ 'A' :: ':' :: ' ' :: p.2.data, x ≠ '\n' := by
    intro x hx
    rcases List.mem_cons.mp hx with rfl | hx
    · decide
    rcases List.mem_cons.mp hx with rfl | hx
    · decide
    rcases List.mem_cons.mp hx with rfl | hx
    · decide
    exact h2 x hx
  have hshape : (joinSep "\n\n" ([p].map renderCard)).data
      = ('Q' :: ':' :: ' ' :: p.1.data) ++ '\n' :: 'A' :: ':' :: ' ' :: p.2.data := by
    rw [List.map_cons, List.map_nil, joinSep_single, renderCard_data]
  unfold pySplitNL
  rw [hshape, splitLinesAux_append _ hQ, splitLinesAux_nl_cons, splitLinesAux_no_nl hA]
  simp

lemma pySplitNL_join_cons (p q : String × String) (qs : List (String × String))
    (h1 : ∀ x ∈ p.1.data, x ≠ '\n') (h2 : ∀ x ∈ p.2.data, x ≠ '\n') :
    pySplitNL (joinSep "\n\n" ((p :: q :: qs).map renderCard))
      = ⟨'Q' :: ':' :: ' ' :: p.1.data⟩ :: ⟨'A' :: ':' :: ' ' :: p.2.data⟩ :: "" ::
        pySplitNL (joinSep "\n\n" ((q :: qs).map renderCard)) := by
  have hQ : ∀ x ∈ 'Q' :: ':' :: ' ' :: p.1.data, x ≠ '\n' := by
    intro x hx
    rcases List.mem_cons.mp hx with rfl | hx
    · decide
    rcases List.mem_cons.mp hx with rfl | hx
    · decide
    rcases List.mem_cons.mp hx with rfl | hx
    · decide
    exact h1 x hx
  have hA : ∀ x ∈ 'A' :: ':' :: ' ' :: p.2.data, x ≠ '\n' := by
    intro x hx
    rcases List.mem_cons.mp hx with rfl | hx
    · decide
    rcases List.mem_cons.mp hx with rfl | hx
    · decide
    rcases List.mem_cons.mp hx with rfl | hx
    · decide
    exact h2 x hx
  have hshape : (joinSep "\n\n" ((p :: q :: qs).map renderCard)).data
      = ('Q' :: ':' :: ' ' :: p.1.data) ++ '\n' ::
          (('A' :: ':' :: ' ' :: p.2.data) ++ '\n' :: '\n' ::
            (joinSep "\n\n" ((q :: qs).map renderCard)).data) := by
    rw [List.map_cons, joinSep_cons_ne _ _ (by simp), data_append, data_append,
      renderCard_data, nl2_data]
    simp [List.append_assoc]
  unfold pySplitNL
  rw [hshape]
  rw [splitLinesAux_append _ hQ, splitLinesAux_nl_cons, splitLinesAux_append _ hA,
    splitLinesAux_nl_cons, splitLinesAux_nl_cons]
  simp

lemma qaScan_cons_pair (p : String × String) (rest : List String) (q0 : Option String)
    (h1 : p.1 ≠ "") (hs1 : pyStrip p.1 = p.1) (hs2 : pyStrip p.2 = p.2) :
    qaScan (⟨'Q' :: ':' :: ' ' :: p.1.data⟩ :: ⟨'A' :: ':' :: ' ' :: p.2.data⟩ :: rest) q0
      = p :: qaScan rest none := by
  have e1 : pyStrip (strDrop (⟨'Q' :: ':' :: ' ' :: p.1.data⟩ : String) 2) = p.1 := by
    rw [drop2_of_two, pyStrip_space_cons]
    exact hs1
  have e2 : pyStrip (strDrop (⟨'A' :: ':' :: ' ' :: p.2.data⟩ : String) 2) = p.2 := by
    rw [drop2_of_two, pyStrip_space_cons]
    exact hs2
  simp only [qaScan, startsQ_of_Q, startsA_of_A, startsQ_of_A, e1, e2]
  simp [h1]

lemma qaScan_cons_empty (rest : List String) (q0 : Option String) :
    qaScan ("" :: rest) q0 = qaScan rest q0 := by
  simp [qaScan, startsQ_of_empty, startsA_of_empty]

/-- Conditions on a question/answer pair under which scanning recovers it:
non-empty question and answer, strip-fixed components, no embedded newline. -/
def goodPair (p : String × String) : Prop :=
  p.1 ≠ "" ∧ p.2 ≠ "" ∧ pyStrip p.1 = p.1 ∧ pyStrip p.2 = p.2 ∧
    (∀ c ∈ p.1.data, c ≠ '\n') ∧ (∀ c ∈ p.2.data, c ≠ '\n')

lemma qaScan_join : ∀ (ps : List (String × String)), (∀ p ∈ ps, goodPair p) →
    qaScan (pySplitNL (joinSep "\n\n" (ps.map renderCard))) none = ps := by
  intro ps
  induction ps with
  | nil => intro h; rfl
  | cons p ps ih =>
    intro h
    have hp := h p (List.mem_cons_self _ _)
    cases ps with
    | nil =>
      rw [pySplitNL_join_single p hp.2.2.2.2.1 hp.2.2.2.2.2]
      rw [qaScan_cons_pair p [] none hp.1 hp.2.2.1 hp.2.2.2.1]
      rfl
    | cons q qs =>
      rw [pySplitNL_join_cons p q qs hp.2.2.2.2.1 hp.2.2.2.2.2]
      rw [qaScan_cons_pair p _ none hp.1 hp.2.2.1 hp.2.2.2.1]
      rw [qaScan_cons_empty]
      rw [ih (fun r hr => h r (List.mem_cons_of_mem _ hr))]

/-- Extracting the blank-line-joined rendering of Q/A pairs recovers exactly
those pairs. -/
lemma extract_render (ps : List (String × String)) (h : ∀ p ∈ ps, goodPair p) :
    extractCards (joinSep "\n\n" (ps.map renderCard)) = ps := by
  unfold extractCards
  rw [join_render_strip_fix ps (fun p hp => ⟨(h p hp).2.1, (h p hp).2.2.2.1⟩)]
  exact qaScan_join ps h

/-! ### Branch lemmas for `demo_response` -/

lemma demo_response_empty {msg input : String} (h : pyStrip input = "") :
    demo_response msg input = "No input provided." := by
  simp [demo_response, h]

lemma demo_summary_eq {msg input : String}
    (hne : pyStrip input ≠ "")
    (hsum : strContains (pyLower msg) "summar" = true)
    (hb : (((splitSentences (pyStrip input)).map (fun s => pyStrip s)).filter
        (fun s => s != "")).take 5 ≠ []) :
    demo_response msg input =
      joinSep "\n" (((((splitSentences (pyStrip input)).map (fun s => pyStrip s)).filter
        (fun s => s != "")).take 5).map (fun b => "- " ++ b)) := by
  simp only [demo_response]
  rw [if_neg hne, hsum]
  simp [hb]

lemma demo_flashcard_eq {msg input : String}
    (hne : pyStrip input ≠ "")
    (hsum : strContains (pyLower msg) "summar" = false)
    (hfc : strContains (pyLower msg) "flashcard" = true) :
    demo_response msg input =
      joinSep "\n\n" ((List.range 5).map
        (fun i => renderCard (flashQA (splitSentences (pyStrip input)) i))) := by
  simp only [demo_response]
  rw [if_neg hne, hsum, hfc]
  simp

lemma demo_mcq_eq {msg input : String}
    (hne : pyStrip input ≠ "")
    (hsum : strContains (pyLower msg) "summar" = false)
    (hfc : strContains (pyLower msg) "flashcard" = false)
    (hmcq : strContains (pyLower msg) "mcq" = true) :
    demo_response msg input = mcqPlaceholder := by
  simp only [demo_response]
  rw [if_neg hne, hsum, hfc, hmcq]
  simp [mcqPlaceholder]

/-! ### Substring monotonicity for keyword tests -/

lemma isPrefixOf_of_append : ∀ (p q x : List Char),
    (p ++ q).isPrefixOf x = true → p.isPrefixOf x = true := by
  intro p
  induction p with
  | nil => intro q x h; simp [List.isPrefixOf]
  | cons a as ih =>
    intro q x h
    cases x with
    | nil => simp [List.isPrefixOf] at h
    | cons b bs =>
      rw [List.cons_append] at h
      simp only [List.isPrefixOf] at h ⊢
      rw [Bool.and_eq_true] at h ⊢
      exact ⟨h.1, ih q bs h.2⟩

lemma listInfixOf_of_append (p q : List Char) : ∀ (l : List Char),
    listInfixOf (p ++ q) l = true → listInfixOf p l = true := by
  intro l
  induction l with
  | nil =>
    intro h
    simp only [listInfixOf] at h ⊢
    rw [List.isEmpty_iff] at h ⊢
    rcases List.append_eq_nil.mp h with ⟨h1, _⟩
    exact h1
  | cons c t ih =>
    intro h
    simp only [listInfixOf] at h ⊢
    rw [Bool.or_eq_true] at h ⊢
    rcases h with h | h
    · exact Or.inl (isPrefixOf_of_append p q _ h)
    · exact Or.inr (ih h)

lemma strContains_summary_summar {s : String}
    (h : strContains s "summary" = true) : strContains s "summar" = true := by
  unfold strContains at h ⊢
  have he : ("summary" : String).data = ("summar" : String).data ++ ['y'] := rfl
  rw [he] at h
  exact listInfixOf_of_append _ _ _ h

lemma strContains_summarize_summar {s : String}
    (h : strContains s "summarize" = true) : strContains s "summar" = true := by
  unfold strContains at h ⊢
  have he : ("summarize" : String).data = ("summar" : String).data ++ ['i', 'z', 'e'] := rfl
  rw [he] at h
  exact listInfixOf_of_append _ _ _ h

/-! ### Well-formedness of the rendered flashcard pairs -/

lemma str_ne_empty_of_left {a b : String} (h : a ≠ "") : a ++ b ≠ "" := by
  intro he
  have hd := congrArg String.data he
  rw [data_append] at hd
  rcases List.append_eq_nil.mp hd with ⟨h1, _⟩
  exact h (String.ext h1)

lemma append_ne_nil_left {l m : List Char} (h : l ≠ []) : l ++ m ≠ [] := by
  cases l with
  | nil => exact absurd rfl h
  | cons c cs => simp

lemma head_nonspace_of_lit {s : String} {d : Char} (hd : s.data.head? = some d)
    (hsp : pyIsSpace d = false) :
    ∀ c, s.data.head? = some c → pyIsSpace c = false := by
  intro c hc
  rw [hd] at hc
  rw [← Option.some.inj hc]
  exact hsp

lemma getLast_nonspace_of_lit {s : String} {d : Char} (hd : s.data.getLast? = some d)
    (hsp : pyIsSpace d = false) :
    ∀ c, s.data.getLast? = some c → pyIsSpace c = false := by
  intro c hc
  rw [hd] at hc
  rw [← Option.some.inj hc]
  exact hsp

lemma strip_fix_of_lit_wrap (a t b : String) (ha : a ≠ "") (hb : b ≠ "")
    (ha1 : ∀ c, a.data.head? = some c → pyIsSpace c = false)
    (hb1 : ∀ c, b.data.getLast? = some c → pyIsSpace c = false) :
    pyStrip (a ++ t ++ b) = a ++ t ++ b := by
  apply String.ext
  show pyStripL (a ++ t ++ b).data = (a ++ t ++ b).data
  apply pyStripL_eq_self
  · intro c hc
    rw [data_append, data_append,
      head?_append_left (append_ne_nil_left (data_ne_nil ha)),
      head?_append_left (data_ne_nil ha)] at hc
    exact ha1 c hc
  · intro c hc
    rw [data_append, data_append, getLast?_append_right (data_ne_nil hb)] at hc
    exact hb1 c hc

lemma noNLb_spec {s : String} (h : noNLb s = true) : ∀ c ∈ s.data, c ≠ '\n' := by
  intro c hc
  have h2 := List.all_eq_true.mp h c hc
  simpa using h2

lemma mem_sentence_chars {input s : String} {x : Char}
    (hs : s ∈ splitSentences (pyStrip input)) (hx : x ∈ s.data) : x ∈ input.data := by
  have h1 : x ∈ (pyStrip input).data := mem_splitSentences_chars hs hx
  exact mem_pyStripL h1

lemma flashQA_good {input : String} (hne : pyStrip input ≠ "")
    (hnl : ∀ c ∈ input.data, c ≠ '\n') :
    ∀ i ∈ List.range 5, goodPair (flashQA (splitSentences (pyStrip input)) i) := by
  intro i hi
  by_cases h : i < (splitSentences (pyStrip input)).length
  · have hs : (splitSentences (pyStrip input))[i] ∈ splitSentences (pyStrip input) :=
      List.getElem_mem h
    have hseg := splitSentences_heads (pyStrip_idem input) hne _ hs
    unfold flashQA
    rw [dif_pos h]
    unfold goodPair
    refine ⟨?_, ?_, ?_, ?_, ?_, ?_⟩
    · exact str_ne_empty_of_left (str_ne_empty_of_left (by decide))
    · exact strip_segment_ne_empty hseg
    · exact strip_fix_of_lit_wrap _ _ _ (by decide) (by decide)
        (head_nonspace_of_lit rfl rfl) (getLast_nonspace_of_lit rfl rfl)
    · exact pyStrip_idem _
    · intro c hc
      rw [data_append, data_append] at hc
      rcases List.mem_append.mp hc with hc1 | hc2
      · rcases List.mem_append.mp hc1 with hc3 | hc4
        · exact noNLb_spec (by decide) c hc3
        · exact hnl c (mem_sentence_chars hs (List.mem_of_mem_take (mem_pyStripL hc4)))
      · exact noNLb_spec (by decide) c hc2
    · intro c hc
      exact hnl c (mem_sentence_chars hs (mem_pyStripL hc))
  · unfold flashQA
    rw [dif_neg h]
    rw [List.mem_range] at hi
    interval_cases i <;> (unfold goodPair; refine ⟨?_, ?_, ?_, ?_, ?_, ?_⟩ <;> decide)

/-! ### Summary-branch helper lemmas -/

lemma splitSentences_ne_nil (t : String) : splitSentences t ≠ [] := by
  unfold splitSentences
  intro h
  exact splitAux_ne_nil t.data (some []) (List.map_eq_nil_iff.mp h)

lemma summary_filter_id {t : String} (hfix : pyStrip t = t) (hne : t ≠ "") :
    ((splitSentences t).map (fun s => pyStrip s)).filter (fun s => s != "")
      = (splitSentences t).map (fun s => pyStrip s) := by
  apply List.filter_eq_self.mpr
  intro a ha
  rcases List.mem_map.mp ha with ⟨s, hs, hsa⟩
  rw [← hsa]
  have hhead := splitSentences_heads hfix hne s hs
  exact bne_iff_ne.mpr (strip_segment_ne_empty hhead)

/-! ### The extractor versus the amended two-state automaton -/

/-- One-step unfolding of the scanning loop, pending question present. -/
lemma qaScan_cons_some (line : String) (rest : List String) (qs : String) :
    qaScan (line :: rest) (some qs) =
      if strStartsWith line "Q:" then qaScan rest (some (pyStrip (strDrop line 2)))
      else if strStartsWith line "A:" then
        (if qs ≠ "" then (qs, pyStrip (strDrop line 2)) :: qaScan rest none
         else qaScan rest (some qs))
      else qaScan rest (some qs) := rfl

/-- One-step unfolding of the scanning loop, no pending question. -/
lemma qaScan_cons_none (line : String) (rest : List String) :
    qaScan (line :: rest) none =
      if strStartsWith line "Q:" then qaScan rest (some (pyStrip (strDrop line 2)))
      else if strStartsWith line "A:" then qaScan rest none
      else qaScan rest none := rfl

/-- Normalisation of the loop's pending variable: `none` and a pending empty
string behave identically. -/
def normPending : Option String → Option String
  | none => none
  | some s => if s = "" then none else some s

lemma foldl_amendedStep_eq : ∀ (lines : List String) (q : Option String)
    (acc : List (String × String)),
    (List.foldl amendedStep (normPending q, acc) lines).2 = acc ++ qaScan lines q := by
  intro lines
  induction lines with
  | nil => intro q acc; simp [qaScan]
  | cons line rest ih =>
    intro q acc
    rw [List.foldl_cons]
    by_cases hq : strStartsWith line "Q:" = true
    · have hstep : amendedStep (normPending q, acc) line
          = (normPending (some (pyStrip (strDrop line 2))), acc) := by
        cases q with
        | none => simp [amendedStep, normPending, hq]
        | some qs => simp [amendedStep, normPending, hq]
      rw [hstep, ih _ acc]
      congr 1
      cases q with
      | none => rw [qaScan_cons_none, if_pos hq]
      | some qs => rw [qaScan_cons_some, if_pos hq]
    · by_cases ha : strStartsWith line "A:" = true
      · cases q with
        | none =>
          have hstep : amendedStep (normPending none, acc) line
              = (normPending none, acc) := by
            simp [amendedStep, normPending, hq, ha]
          rw [hstep, ih none acc]
          congr 1
          rw [qaScan_cons_none, if_neg hq, if_pos ha]
        | some qs =>
          by_cases hqs : qs = ""
          · subst hqs
            have hstep : amendedStep (normPending (some ""), acc) line
                = (normPending (some ""), acc) := by
              simp [amendedStep, normPending, hq, ha]
            rw [hstep, ih (some "") acc]
            congr 1
            rw [qaScan_cons_some, if_neg hq, if_pos ha, if_neg (by simp)]
          · have hstep : amendedStep (normPending (some qs), acc) line
                = (normPending none, acc ++ [(qs, pyStrip (strDrop line 2))]) := by
              simp [amendedStep, normPending, hq, ha, hqs]
            rw [hstep, ih none (acc ++ [(qs, pyStrip (strDrop line 2))])]
            rw [qaScan_cons_some, if_neg hq, if_pos ha, if_pos hqs]
            simp
      · have hstep : amendedStep (normPending q, acc) line = (normPending q, acc) := by
          cases q with
          | none => simp [amendedStep, normPending, hq, ha]
          | some qs => simp [amendedStep, normPending, hq, ha]
        rw [hstep, ih q acc]
        congr 1
        cases q with
        | none => rw [qaScan_cons_none, if_neg hq, if_neg ha]
        | some qs => rw [qaScan_cons_some, if_neg hq, if_neg ha]

/-! ### The scan never emits an empty question -/

lemma qaScan_no_empty : ∀ (lines : List String) (q : Option String)
    (p : String × String), p ∈ qaScan lines q → p.1 ≠ "" := by
  intro lines
  induction lines with
  | nil => intro q p hp; simp [qaScan] at hp
  | cons line rest ih =>
    intro q p hp
    by_cases hq : strStartsWith line "Q:" = true
    · cases q with
      | none =>
        rw [qaScan_cons_none, if_pos hq] at hp
        exact ih _ p hp
      | some qs =>
        rw [qaScan_cons_some, if_pos hq] at hp
        exact ih _ p hp
    · by_cases ha : strStartsWith line "A:" = true
      · cases q with
        | none =>
          rw [qaScan_cons_none, if_neg hq, if_pos ha] at hp
          exact ih none p hp
        | some qs =>
          rw [qaScan_cons_some, if_neg hq, if_pos ha] at hp
          by_cases hqs : qs ≠ ""
          · rw [if_pos hqs] at hp
            rcases List.mem_cons.mp hp with hp1 | hp2
            · rw [hp1]
              exact hqs
            · exact ih none p hp2
          · rw [if_neg hqs] at hp
            exact ih _ p hp
      · cases q with
        | none =>
          rw [qaScan_cons_none, if_neg hq, if_neg ha] at hp
          exact ih none p hp
        | some qs =>
          rw [qaScan_cons_some, if_neg hq, if_neg ha] at hp
          exact ih _ p hp

/-! ### The flashcard loop pair agrees with the claim's indexed formulas -/

lemma flashQA_eq_spec (sents : List String) (i : Nat) :
    flashQA sents i = flashSpecPair sents i := by
  unfold flashQA flashSpecPair
  by_cases h : i < sents.length
  · rw [dif_pos h, List.getElem?_eq_getElem h]
  · rw [dif_neg h, List.getElem?_eq_none (by omega)]

/-! ## Claim theorems -/

/-- **C1** (counterexample): the extractor as the claim literally states it —
scanning the raw body's own lines, with any set slot (even an empty question)
usable — disagrees with the code: the code strips the whole body first, and a
"Q:" line whose trimmed remainder is empty leaves no usable pending question. -/
theorem extractor_claim_counterexample :
    extractCards " Q: w\nA: x" = [("w", "x")] ∧
    claimExtract " Q: w\nA: x" = [] ∧
    extractCards "Q:\nA: some answer" = [] ∧
    claimExtract "Q:\nA: some answer" = [("", "some answer")] := by
  refine ⟨?_, ?_, ?_, ?_⟩ <;> decide

/-- **C1** (amended): the flashcard extractor first strips leading and
trailing whitespace from the whole body, then scans its lines with the
two-state automaton in which a question is pending only when its trimmed text
is non-empty: a "Q:" line overwrites the pending slot with its trimmed
remainder (discarding any pending question without a record), an "A:" line
emits {question, answer} and clears the slot when a question is pending and
produces nothing otherwise, and every other line is ignored; the result is
the ordered sequence of emitted records. -/
theorem extractor_matches_amended_scan (body : String) :
    extractCards body = amendedExtract body := by
  unfold extractCards amendedExtract
  have h := foldl_amendedStep_eq (pySplitNL (pyStrip body)) none []
  simpa [normPending] using h.symm

/-- **C2** (counterexample): a system message containing both "summar" and
"flashcard" takes the summary branch first, so the claim's bare "contains
flashcard" hypothesis does not yield the 5-card output. -/
theorem flashcard_claim_counterexample :
    strContains (pyLower "summarize with flashcards") "flashcard" = true ∧
    pyStrip "Hello." ≠ "" ∧
    demo_response "summarize with flashcards" "Hello." = "- Hello." ∧
    demo_response "summarize with flashcards" "Hello." ≠ flashcardSpecOutput "Hello." := by
  refine ⟨?_, ?_, ?_, ?_⟩ <;> decide

/-- **C2** (amended): for every system message whose lowercased text contains
"flashcard" but not "summar", and every input non-empty after trimming, the
fallback returns exactly 5 cards indexed 0..4 joined by a blank line, card i
being the two lines "Q: "/"A: " with question
`What does this mean: "<first 60 chars of sentence i, trimmed>"?` and answer
the trimmed sentence when sentence i exists, and
`Define key concept <i+1>.` / `Short definition or key point.` otherwise. -/
theorem flashcard_branch_output (msg input : String)
    (hfc : strContains (pyLower msg) "flashcard" = true)
    (hsum : strContains (pyLower msg) "summar" = false)
    (hne : pyStrip input ≠ "") :
    demo_response msg input = flashcardSpecOutput input := by
  rw [demo_flashcard_eq hne hsum hfc]
  unfold flashcardSpecOutput
  simp only [flashQA_eq_spec]

theorem flashcard_branch_output_witness :
    strContains (pyLower "flashcard") "flashcard" = true ∧
    strContains (pyLower "flashcard") "summar" = false ∧
    pyStrip "Hello." ≠ "" ∧
    demo_response "flashcard" "Hello." = flashcardSpecOutput "Hello." :=
  ⟨by decide, by decide, by decide,
    flashcard_branch_output "flashcard" "Hello." (by decide) (by decide) (by decide)⟩

/-- **C3**: when a backend is configured and its call fails, the dispatcher's
body is the fallback output, then exactly two newlines, then the bracketed
note carrying the error text; in particular the fallback output is a byte
prefix of the result. -/
theorem dispatch_backend_failure_note (msg input e : String) :
    generate_response msg input (some (BackendOutcome.error e))
      = demo_response msg input ++ "\n\n[Note: LLM call failed: " ++ e ++ "]" ∧
    strStartsWith (generate_response msg input (some (BackendOutcome.error e)))
      (demo_response msg input) = true := by
  refine ⟨rfl, ?_⟩
  unfold strStartsWith generate_response
  rw [data_append, data_append, data_append, List.append_assoc, List.append_assoc]
  exact isPrefixOf_self_append _ _

/-- **C4** (counterexample): the whitespace-only input " " is a non-empty
string, yet the summary branch is never reached: the empty-after-trim guard
fires first and the output is not a "- " bulleted list. -/
theorem summary_claim_counterexample :
    strContains (pyLower "summary") "summary" = true ∧
    (" " : String) ≠ "" ∧
    demo_response "summary" " " = "No input provided." ∧
    strStartsWith "No input provided." "- " = false := by
  refine ⟨?_, ?_, ?_, ?_⟩ <;> decide

/-- **C4** (amended): for any system message containing "summary" or
"summarize" and any input that is non-empty after trimming, the fallback
output is the newline-join of a bullet list in which every bullet starts with
"- ", each bullet is a trimmed sentence of the input in order, and the number
of bullets is min(5, number of sentences). -/
theorem summary_branch_bullets (msg input : String)
    (hkw : strContains (pyLower msg) "summary" = true ∨
      strContains (pyLower msg) "summarize" = true)
    (hne : pyStrip input ≠ "") :
    ∃ bullets : List String,
      demo_response msg input = joinSep "\n" bullets ∧
      bullets.length = min 5 (splitSentences (pyStrip input)).length ∧
      (∀ b ∈ bullets, strStartsWith b "- " = true) ∧
      bullets = (((splitSentences (pyStrip input)).map (fun s => pyStrip s)).take 5).map
        (fun b => "- " ++ b) := by
  have hsum : strContains (pyLower msg) "summar" = true := by
    rcases hkw with h | h
    · exact strContains_summary_summar h
    · exact strContains_summarize_summar h
  have hfix : pyStrip (pyStrip input) = pyStrip input := pyStrip_idem input
  have hfid := summary_filter_id hfix hne
  have hmapne : (splitSentences (pyStrip input)).map (fun s => pyStrip s) ≠ [] := by
    intro h0
    exact splitSentences_ne_nil (pyStrip input) (List.map_eq_nil_iff.mp h0)
  have hbne : (((splitSentences (pyStrip input)).map (fun s => pyStrip s)).filter
      (fun s => s != "")).take 5 ≠ [] := by
    rw [hfid]
    cases hmap : (splitSentences (pyStrip input)).map (fun s => pyStrip s) with
    | nil => exact absurd hmap hmapne
    | cons b bs => simp
  refine ⟨(((splitSentences (pyStrip input)).map (fun s => pyStrip s)).take 5).map
      (fun b => "- " ++ b), ?_, ?_, ?_, rfl⟩
  · rw [demo_summary_eq hne hsum hbne, hfid]
  · simp [List.length_take, List.length_map]
  · intro b hb
    rcases List.mem_map.mp hb with ⟨x, hx, hbx⟩
    rw [← hbx]
    unfold strStartsWith
    rw [data_append]
    exact isPrefixOf_self_append _ _

theorem summary_branch_bullets_witness :
    (strContains (pyLower "summary") "summary" = true ∨
      strContains (pyLower "summary") "summarize" = true) ∧
    pyStrip "One. Two." ≠ "" ∧
    ∃ bullets : List String,
      demo_response "summary" "One. Two." = joinSep "\n" bullets ∧
      bullets.length = min 5 (splitSentences (pyStrip "One. Two.")).length ∧
      (∀ b ∈ bullets, strStartsWith b "- " = true) ∧
      bullets = (((splitSentences (pyStrip "One. Two.")).map (fun s => pyStrip s)).take 5).map
        (fun b => "- " ++ b) :=
  ⟨Or.inl (by decide), by decide,
    summary_branch_bullets "summary" "One. Two." (Or.inl (by decide)) (by decide)⟩

/-- **C5**: for every system message, an input that is empty after trimming
(including the empty string) yields the literal "No input provided."; the
guard fires before any keyword matching on the system message. -/
theorem empty_input_terminal (msg input : String) (h : pyStrip input = "") :
    demo_response msg input = "No input provided." :=
  demo_response_empty h

theorem empty_input_terminal_witness :
    pyStrip " \t" = "" ∧
    demo_response "summary flashcard mcq" " \t" = "No input provided." :=
  ⟨by decide, empty_input_terminal "summary flashcard mcq" " \t" (by decide)⟩

/-- **C6** (counterexample): for a system message containing "mcq" the output
is not independent of the user input: the empty input hits the empty-input
terminal case while a non-empty input yields the MCQ placeholder. -/
theorem mcq_claim_counterexample :
    strContains (pyLower "mcq") "mcq" = true ∧
    demo_response "mcq" "" = "No input provided." ∧
    demo_response "mcq" "" ≠ demo_response "mcq" "Topic." := by
  refine ⟨?_, ?_, ?_⟩ <;> decide

/-- **C6** (amended): for a system message whose lowercased text contains
"mcq" but neither "summar" nor "flashcard", the output is identical for every
pair of inputs that are non-empty after trimming, and equals the fixed MCQ
placeholder of exactly 5 numbered blocks (1..5), each with options A)–D) and
a line `**Answer:** A`, joined by a blank line. -/
theorem mcq_branch_input_independent (msg i1 i2 : String)
    (hmcq : strContains (pyLower msg) "mcq" = true)
    (hsum : strContains (pyLower msg) "summar" = false)
    (hfc : strContains (pyLower msg) "flashcard" = false)
    (h1 : pyStrip i1 ≠ "") (h2 : pyStrip i2 ≠ "") :
    demo_response msg i1 = demo_response msg i2 ∧
    demo_response msg i1 = mcqPlaceholder := by
  have e1 := demo_mcq_eq h1 hsum hfc hmcq
  have e2 := demo_mcq_eq h2 hsum hfc hmcq
  exact ⟨e1.trans e2.symm, e1⟩

theorem mcq_branch_input_independent_witness :
    strContains (pyLower "mcq") "mcq" = true ∧
    pyStrip "a." ≠ "" ∧ pyStrip "bb." ≠ "" ∧
    (demo_response "mcq" "a." = demo_response "mcq" "bb." ∧
      demo_response "mcq" "a." = mcqPlaceholder) :=
  ⟨by decide, by decide, by decide,
    mcq_branch_input_independent "mcq" "a." "bb." (by decide) (by decide) (by decide)
      (by decide) (by decide)⟩

/-- **C7**: with no backend configured, the dispatcher's body is exactly the
fallback output, with no diagnostic note appended. -/
theorem dispatch_no_backend_plain (msg input : String) :
    generate_response msg input none = demo_response msg input := rfl

/-- **C8** (counterexample): the sentence splitter applied to the empty
string yields the one-element sequence containing the empty string, not an
empty sequence (as `re.split` always returns at least one segment). -/
theorem split_empty_counterexample :
    splitSentences "" = [""] ∧ splitSentences "" ≠ ([] : List String) := by
  refine ⟨rfl, by decide⟩

/-- **C8** (amended): the splitter applied to the empty string yields the
one-element sequence containing the empty string; for every input it splits
exactly at the boundaries defined as a sentence-ending character `.`, `!`,
`?` followed by whitespace, the boundary characters remaining attached to
the preceding sentence: every sentence but the last ends with a
sentence-ending character; no returned sentence still contains a boundary
(a sentence-ending character immediately followed by whitespace), so a
split occurs at every boundary occurrence; the input is exactly the
concatenation of the sentences interleaved with the removed separator runs,
each a non-empty run of whitespace; and an input containing no whitespace
is returned whole. -/
theorem split_boundaries_amended :
    splitSentences "" = [""] ∧
    (∀ (t : String), ∀ s ∈ (splitSentences t).dropLast,
      ∃ c, s.data.getLast? = some c ∧ isSentEnd c = true) ∧
    (∀ (t : String), ∀ s ∈ splitSentences t, hasBoundary s.data = false) ∧
    (∀ (t : String), ∃ seps : List (List Char),
      (splitSentences t).length = seps.length + 1 ∧
      (∀ w ∈ seps, w ≠ [] ∧ ∀ c ∈ w, pyIsSpace c = true) ∧
      alternate ((splitSentences t).map String.data) seps = t.data) ∧
    (∀ (t : String), (∀ c ∈ t.data, pyIsSpace c = false) → splitSentences t = [t]) := by
  refine ⟨rfl, ?_, ?_, ?_, ?_⟩
  · intro t s hs
    unfold splitSentences at hs
    rw [← List.map_dropLast] at hs
    rcases List.mem_map.mp hs with ⟨seg, hseg, hmk⟩
    obtain ⟨c, hc, hcend⟩ := splitAux_dropLast t.data (some []) seg hseg
    refine ⟨c, ?_, hcend⟩
    rw [← hmk]
    exact hc
  · intro t s hs
    unfold splitSentences at hs
    rcases List.mem_map.mp hs with ⟨seg, hseg, hmk⟩
    rw [← hmk]
    refine splitAux_no_boundary t.data (some []) ?_ seg hseg
    intro a h
    injection h with h'
    rw [← h']
    rfl
  · intro t
    obtain ⟨seps, h1, h2, h3⟩ := splitAux_alternate t.data (some [])
    refine ⟨seps, ?_, h2, ?_⟩
    · unfold splitSentences
      rw [List.length_map]
      exact h1
    · unfold splitSentences
      rw [map_data_map_mk, h3]
      rfl
  · intro t h
    unfold splitSentences
    rw [splitAux_nospace t.data [] h]
    rfl

theorem split_boundaries_amended_witness :
    (∃ c, ("Hi!" : String).data.getLast? = some c ∧ isSentEnd c = true) ∧
    hasBoundary ("Hi!" : String).data = false ∧
    splitSentences "abc" = ["abc"] :=
  ⟨split_boundaries_amended.2.1 "Hi! Go." "Hi!" (by decide),
   split_boundaries_amended.2.2.1 "Hi! Go." "Hi!" (by decide),
   split_boundaries_amended.2.2.2.2 "abc" (by decide)⟩

/-- **C9** (counterexample): the round trip is not always exactly 5 records:
an input whose sentence embeds its own "Q:"/"A:" lines makes the extractor
emit extra records from inside the first card (6 here). -/
theorem roundtrip_counterexample :
    strContains (pyLower "flashcard") "flashcard" = true ∧
    strContains (pyLower "flashcard") "summar" = false ∧
    pyStrip "hi\nQ: x\nA: y." ≠ "" ∧
    (extractCards (demo_response "flashcard" "hi\nQ: x\nA: y.")).length = 6 := by
  refine ⟨?_, ?_, ?_, ?_⟩ <;> decide

/-- **C9** (amended): for every system message whose lowercased text contains
"flashcard" but not "summar", and every newline-free input that is non-empty
after trimming, running the Q:/A: extractor on the fallback flashcard output
yields exactly 5 records. -/
theorem roundtrip_five_cards (msg input : String)
    (hfc : strContains (pyLower msg) "flashcard" = true)
    (hsum : strContains (pyLower msg) "summar" = false)
    (hne : pyStrip input ≠ "")
    (hnl : ∀ c ∈ input.data, c ≠ '\n') :
    (extractCards (demo_response msg input)).length = 5 := by
  rw [demo_flashcard_eq hne hsum hfc]
  have hmap : (List.range 5).map
        (fun i => renderCard (flashQA (splitSentences (pyStrip input)) i))
      = ((List.range 5).map (fun i => flashQA (splitSentences (pyStrip input)) i)).map
          renderCard := (List.map_map _ _ _).symm
  rw [hmap]
  have hgood : ∀ p ∈ (List.range 5).map
      (fun i => flashQA (splitSentences (pyStrip input)) i), goodPair p := by
    intro p hp
    rcases List.mem_map.mp hp with ⟨i, hi, hpi⟩
    rw [← hpi]
    exact flashQA_good hne hnl i hi
  rw [extract_render _ hgood]
  simp

theorem roundtrip_five_cards_witness :
    strContains (pyLower "flashcard") "flashcard" = true ∧
    strContains (pyLower "flashcard") "summar" = false ∧
    pyStrip "Hi." ≠ "" ∧
    (∀ c ∈ ("Hi." : String).data, c ≠ '\n') ∧
    (extractCards (demo_response "flashcard" "Hi.")).length = 5 :=
  ⟨by decide, by decide, by decide, by decide,
    roundtrip_five_cards "flashcard" "Hi." (by decide) (by decide) (by decide) (by decide)⟩

/-- **C10**: a "Q:" line whose trimmed remainder is empty leaves no usable
pending question, so no extracted record ever has an empty question; in
particular extracting "Q:\nA: some answer" yields the empty sequence. -/
theorem no_empty_question :
    (∀ (body : String) (p : String × String), p ∈ extractCards body → p.1 ≠ "") ∧
    extractCards "Q:\nA: some answer" = [] := by
  constructor
  · intro body p hp
    exact qaScan_no_empty _ _ p hp
  · decide

theorem no_empty_question_witness : ("x", "y").1 ≠ "" :=
  no_empty_question.1 "Q: x\nA: y" ("x", "y") (by decide)

end StudyApp
